import Mathlib

/-!
Verification development for the cell-pool / tile-map core of
SimpleHydrology (`source/cellpool.h` and the companion quadmap header).

The C++ code is shallowly embedded:
  * `ivec2` (glm integer 2-vector) becomes a structure of two `Int`s;
    componentwise C++ `/` on `int` truncates toward zero, i.e. `Int.tdiv`.
  * raw pointers into the arena become `Option Int` (an offset into the
    arena's storage measured in cell records; `none` is `NULL`).
  * `mappool::pool` keeps its free deque as a `List` whose head is the
    deque's front; `pool::get` returns the issued buffer together with
    the updated pool state.
-/

/-- Integer 2-vector, the glm `ivec2` used throughout the code. -/
structure ivec2 where
  x : Int
  y : Int
  deriving DecidableEq, Repr

instance : Add ivec2 := ⟨fun a b => ⟨a.x + b.x, a.y + b.y⟩⟩

instance : Sub ivec2 := ⟨fun a b => ⟨a.x - b.x, a.y - b.y⟩⟩

/-- Componentwise C++ integer division of a vector by a scalar
(truncation toward zero, as in `(p - pos)/s.scale`). -/
def ivec2.sdiv (a : ivec2) (s : Int) : ivec2 :=
  ⟨a.x.tdiv s, a.y.tdiv s⟩

/-- Componentwise C++ integer division of a vector by a vector
(truncation toward zero, as in `p /= ivec2(WSIZE, WSIZE)`). -/
def ivec2.vdiv (a b : ivec2) : ivec2 :=
  ⟨a.x.tdiv b.x, a.y.tdiv b.y⟩

/-- Componentwise minimum, glm `min` on `ivec2`. -/
def ivec2.cmin (a b : ivec2) : ivec2 :=
  ⟨min a.x b.x, min a.y b.y⟩

/-- Componentwise maximum, glm `max` on `ivec2`. -/
def ivec2.cmax (a b : ivec2) : ivec2 :=
  ⟨max a.x b.x, max a.y b.y⟩

/-- Modelled from the spec: the helper `math::flatten` is not among the
provided sources; the spec fixes the row-major convention
`offset = p.x * res.y + p.y`. -/
def math.flatten (p r : ivec2) : Int :=
  p.x * r.y + p.y

namespace mappool

/-- Raw interleaved data buffer `mappool::buf<T>`: a (pointer, length)
pair. The pointer is an `Option Int` offset into arena storage;
`none` models `NULL`. -/
structure buf where
  start : Option Int := none
  size : Nat := 0
  deriving DecidableEq, Repr

/-- The failure sentinel `{NULL, 0}` returned by `pool::get`. -/
def buf.null : buf := ⟨none, 0⟩

/-- The half-open range of arena offsets covered by a buffer. -/
def buf.range (b : buf) : Finset Int :=
  match b.start with
  | none => ∅
  | some s => Finset.Ico s (s + b.size)

/-- Raw interleaved data buffer slice `mappool::slice<T>`. The quadmap
header's variant carries a per-slice `scale` (defaulted to 1); the
`quad` variant of `cellpool.h` simply leaves it unused. -/
structure slice where
  root : buf := {}
  res : ivec2 := ⟨0, 0⟩
  scale : Int := 1
  deriving DecidableEq, Repr

/-- `slice::size`, the element count `res.x * res.y`. -/
def slice.size (s : slice) : Int :=
  s.res.x * s.res.y

/-- `slice::oob`: out-of-bounds test on local coordinates. -/
def slice.oob (s : slice) (p : ivec2) : Bool :=
  if p.x ≥ s.res.x then true
  else if p.y ≥ s.res.y then true
  else if p.x < 0 then true
  else if p.y < 0 then true
  else false

/-- `slice::get`: `NULL` when the backing pointer is `NULL` or the point
is out of bounds, otherwise the pointer `root.start + math::flatten(p, res)`. -/
def slice.get (s : slice) (p : ivec2) : Option Int :=
  match s.root.start with
  | none => none
  | some st => if s.oob p then none else some (st + math.flatten p s.res)

/-- Raw interleaved data pool `mappool::pool<T>`: the backing buffer and
the deque of free regions (head of the list = front of the deque). -/
structure pool where
  root : buf := {}
  free : List buf := []
  deriving DecidableEq, Repr

/-- `pool::reserve`: install backing storage of `_size` records (the new
allocation is offset 0) and push the whole range onto the free deque. -/
def pool.reserve (p : pool) (_size : Nat) : pool :=
  { root := ⟨some 0, _size⟩, free := ⟨some 0, _size⟩ :: p.free }

/-- The constructor `pool(size_t)`: default construction followed by
`reserve`. -/
def pool.init (_size : Nat) : pool :=
  pool.reserve {} _size

/-- `pool::get`: cut `_size` records from the front of the first free
region, or return the `{NULL, 0}` sentinel; the pool state after the
call is returned alongside. -/
def pool.get (p : pool) (_size : Nat) : buf × pool :=
  match p.free with
  | [] => (buf.null, p)
  | f :: rest =>
    if _size > p.root.size then (buf.null, p)
    else if f.size < _size then (buf.null, p)
    else (⟨f.start, _size⟩,
          { root := p.root,
            free := ⟨f.start.map (· + (_size : Int)), f.size - _size⟩ :: rest })

/-- Run a sequence of `pool::get` calls, collecting the issued buffers
and threading the pool state. -/
def runAllocs (p : pool) : List Nat → List buf × pool
  | [] => ([], p)
  | n :: ns =>
    let r := p.get n
    let rs := runAllocs r.2 ns
    (r.1 :: rs.1, rs.2)

/-- The buffers a run of successful allocations starting at offset `t`
issues: consecutive ranges at the prefix sums. -/
def expectedBufs (t : Int) : List Nat → List buf
  | [] => []
  | n :: ns => ⟨some t, n⟩ :: expectedBufs (t + n) ns

/-- Union of the ranges of a list of buffers. -/
def bufsUnion (l : List buf) : Finset Int :=
  l.foldr (fun b acc => b.range ∪ acc) ∅

end mappool

namespace quadmap

/-- Tile `quadmap::node<T>`: world-space origin, absolute extent, the
opaque vertexpool handle (stored, never interpreted), and the data slice. -/
structure node where
  pos : ivec2 := ⟨0, 0⟩
  res : ivec2 := ⟨0, 0⟩
  vertex : Option Nat := none
  s : mappool.slice := {}
  deriving DecidableEq, Repr

/-- `node::get`: transform to local coordinates `(p - pos)/s.scale` and
forward to `slice::get`. -/
def node.get (t : node) (p : ivec2) : Option Int :=
  t.s.get ((p - t.pos).sdiv t.s.scale)

/-- `node::oob`: same transform, forwarded to `slice::oob`. -/
def node.oob (t : node) (p : ivec2) : Bool :=
  t.s.oob ((p - t.pos).sdiv t.s.scale)

/-- Grid `quadmap::map<T>`: the tile collection and the accumulated
bounding rectangle, whose members are initialized to `ivec2(0)`. -/
structure map where
  nodes : List node := []
  _min : ivec2 := ⟨0, 0⟩
  _max : ivec2 := ⟨0, 0⟩
  deriving DecidableEq, Repr

/-- A freshly constructed (default-initialized) grid. -/
def map.empty : map := {}

/-- `map::add`: append the tile and extend the bounding rectangle. -/
def map.add (m : map) (n : node) : map :=
  { nodes := m.nodes ++ [n],
    _min := m._min.cmin n.pos,
    _max := m._max.cmax (n.pos + n.res) }

/-- Sequence of `map::add` calls. -/
def map.addAll (m : map) (ts : List node) : map :=
  ts.foldl map.add m

/-- `map::oob`: outside the accumulated bounding rectangle `[min, max)`. -/
def map.oob (m : map) (p : ivec2) : Bool :=
  if p.x < m._min.x then true
  else if p.y < m._min.y then true
  else if p.x ≥ m._max.x then true
  else if p.y ≥ m._max.y then true
  else false

/-- `map::get`: `NULL` when out of bounds; otherwise divide by the fixed
per-tile extent `ivec2(WSIZE, WSIZE)` and return `&nodes[p.x*TILES + p.y]`.
The externally supplied constants `WSIZE` and `TILES` are parameters
here. A negative or too-large index would be undefined behaviour on the
`vector`; the embedding returns `none` there. -/
def map.get (W T : Int) (m : map) (p : ivec2) : Option node :=
  if m.oob p then none
  else
    let q := p.vdiv ⟨W, W⟩
    let ind := q.x * T + q.y
    if ind < 0 then none else m.nodes.get? ind.toNat

end quadmap

namespace quad

/-- World scale constant `quad::mapscale`. -/
def mapscale : Int := 80

/-- Tile edge length `quad::tilesize`. -/
def tilesize : Int := 512

/-- Cells per tile `quad::tilearea`. -/
def tilearea : Int := tilesize * tilesize

/-- Tile resolution vector `quad::tileres`. -/
def tileres : ivec2 := ⟨tilesize, tilesize⟩

/-- Tiles per axis `quad::mapsize`. -/
def mapsize : Int := 2

/-- Total tile count `quad::maparea`. -/
def maparea : Int := mapsize * mapsize

/-- World edge length `quad::size`. -/
def size : Int := mapsize * tilesize

/-- Detail level `quad::levelsize`. -/
def levelsize : Int := 2

/-- Cells per detail block `quad::levelarea`. -/
def levelarea : Int := levelsize * levelsize

/-- Tile `quad::node` of `cellpool.h`: like `quadmap::node` but the
local-coordinate transform divides by the global `levelsize` (the slice
there carries no scale member; the shared slice structure's `scale`
field is left at its default and unused). -/
structure node where
  pos : ivec2 := ⟨0, 0⟩
  res : ivec2 := ⟨0, 0⟩
  vertex : Option Nat := none
  s : mappool.slice := {}
  deriving DecidableEq, Repr

/-- `quad::node::get`: local coordinates `(p - pos)/levelsize` forwarded
to `slice::get`. -/
def node.get (t : node) (p : ivec2) : Option Int :=
  t.s.get ((p - t.pos).sdiv levelsize)

/-- `quad::node::oob`. -/
def node.oob (t : node) (p : ivec2) : Bool :=
  t.s.oob ((p - t.pos).sdiv levelsize)

/-- Grid `quad::map`: a fixed array `node nodes[maparea]`, modelled as a
list whose entry `i*mapsize + j` is tile `(i, j)`. -/
structure map where
  nodes : List node := []
  deriving DecidableEq, Repr

/-- `quad::map::oob`: outside the fixed square `[0, size)²`; the map
state itself is unread since the bounds are global constants. -/
def map.oob (_m : map) (p : ivec2) : Bool :=
  if p.x < 0 then true
  else if p.y < 0 then true
  else if p.x ≥ size then true
  else if p.y ≥ size then true
  else false

/-- `quad::map::get`: bounds test, divide by `tileres`, row-major index
`p.x*mapsize + p.y` into the fixed tile array. As in `quadmap::map::get`,
an index outside the array would be undefined behaviour and is `none`
in the embedding. -/
def map.get (m : map) (p : ivec2) : Option node :=
  if m.oob p then none
  else
    let q := p.vdiv tileres
    let ind := q.x * mapsize + q.y
    if ind < 0 then none else m.nodes.get? ind.toNat

/-- The tile written at index `(i, j)` by `quad::map::init`: position
`tileres*ivec2(i, j)`, extent `tileres`, the vertexpool handle (opaque,
modelled as `none`), and a slice of resolution `tileres/levelsize` over
whatever buffer `cellpool.get(tilearea/levelarea)` returned. -/
def initNode (i j : Int) (b : mappool.buf) : node :=
  { pos := ⟨tilesize * i, tilesize * j⟩,
    res := tileres,
    vertex := none,
    s := { root := b, res := tileres.sdiv levelsize, scale := 1 } }

/-- `quad::map::init`: the `i`/`j` loops over `[0, mapsize)` allocate one
buffer of `tilearea/levelarea` cells per tile from the cell pool, in
index order `ind = i*mapsize + j = 0, 1, 2, 3`, and store the tile into
the array unconditionally — allocation failure is never checked. The
vertexpool interaction is external to the core and not modelled. -/
def map.init (cellpool : mappool.pool) : map × mappool.pool :=
  let r0 := cellpool.get (tilearea / levelarea).toNat
  let r1 := r0.2.get (tilearea / levelarea).toNat
  let r2 := r1.2.get (tilearea / levelarea).toNat
  let r3 := r2.2.get (tilearea / levelarea).toNat
  (⟨[initNode 0 0 r0.1, initNode 0 1 r1.1, initNode 1 0 r2.1, initNode 1 1 r3.1]⟩,
   r3.2)

end quad

/-- Tile at position (1, 1) used to exhibit the bounding-box
initialization behaviour of `quadmap::map::add`. -/
def quadmap.tileOne : quadmap.node :=
  { pos := ⟨1, 1⟩, res := ⟨1, 1⟩ }

/-- The scenario tile of the spec: `pos = (0,0)`, `res = (4,4)`,
`scale = 1`, backed by a 16-cell slice starting at `base`. -/
def quadmap.scenarioTile (base : Int) : quadmap.node :=
  { pos := ⟨0, 0⟩, res := ⟨4, 4⟩, vertex := none,
    s := { root := ⟨some base, 16⟩, res := ⟨4, 4⟩, scale := 1 } }

/-- Tile with scale 2 at world position (10, 0), used to exhibit the
negative-side overhang of the truncating coordinate transform. -/
def quadmap.tileScaled : quadmap.node :=
  { pos := ⟨10, 0⟩, res := ⟨8, 8⟩, vertex := none,
    s := { root := ⟨some 0, 16⟩, res := ⟨4, 4⟩, scale := 2 } }

/-- Unit tile for the well-formed one-tile grid below. -/
def quadmap.unitTile : quadmap.node :=
  { pos := ⟨0, 0⟩, res := ⟨1, 1⟩, vertex := none, s := {} }

/-- Well-formed uniform grid with a single unit tile (per-tile extent 1,
one tile per axis). -/
def quadmap.unitGrid : quadmap.map :=
  { nodes := [quadmap.unitTile], _min := ⟨0, 0⟩, _max := ⟨1, 1⟩ }

/-- Componentwise reduction of vector subtraction. -/
theorem ivec2.sub_x (a b : ivec2) : (a - b).x = a.x - b.x := rfl

/-- Componentwise reduction of vector subtraction. -/
theorem ivec2.sub_y (a b : ivec2) : (a - b).y = a.y - b.y := rfl

/-- Componentwise reduction of vector addition. -/
theorem ivec2.add_x (a b : ivec2) : (a + b).x = a.x + b.x := rfl

/-- Componentwise reduction of vector addition. -/
theorem ivec2.add_y (a b : ivec2) : (a + b).y = a.y + b.y := rfl

/-- C3: for every point `p`, `slice::get p` is `NULL` iff the backing
pointer is `NULL` or `slice::oob p`; and `slice::oob p` holds iff
`p.x < 0 ∨ p.y < 0 ∨ p.x ≥ res.x ∨ p.y ≥ res.y`. -/
theorem claim_C3_slice_get_null_iff (s : mappool.slice) (p : ivec2) :
    (s.get p = none ↔ (s.root.start = none ∨ s.oob p = true)) ∧
    (s.oob p = true ↔ (p.x < 0 ∨ p.y < 0 ∨ p.x ≥ s.res.x ∨ p.y ≥ s.res.y)) := by
  constructor
  · unfold mappool.slice.get
    cases h : s.root.start with
    | none => simp
    | some st =>
      by_cases ho : s.oob p <;> simp [ho]
  · unfold mappool.slice.oob
    split_ifs with h1 h2 h3 h4 <;> simp_all

/-- C6: for every world point `p` and tile `T`, `T.get p` equals
`T.s.get ((p - T.pos) / T.s.scale)` and `T.oob p` equals
`T.s.oob ((p - T.pos) / T.s.scale)`, the division being componentwise
truncating integer division by the tile's own scale factor. -/
theorem claim_C6_node_forwards_to_slice (t : quadmap.node) (p : ivec2) :
    t.get p = t.s.get ((p - t.pos).sdiv t.s.scale) ∧
    t.oob p = t.s.oob ((p - t.pos).sdiv t.s.scale) :=
  ⟨rfl, rfl⟩

/-- C10: on a freshly constructed grid (no tile added), `_min` and
`_max` are both `(0, 0)`, so `oob` is true and `get` is `NULL` at every
world point. -/
theorem claim_C10_empty_map_all_oob (W T : Int) (p : ivec2) :
    quadmap.map.empty._min = ⟨0, 0⟩ ∧ quadmap.map.empty._max = ⟨0, 0⟩ ∧
    quadmap.map.empty.oob p = true ∧ quadmap.map.empty.get W T p = none := by
  have h : quadmap.map.empty.oob p = true := by
    unfold quadmap.map.empty quadmap.map.oob
    split_ifs <;> simp_all
  refine ⟨rfl, rfl, h, ?_⟩
  unfold quadmap.map.get
  simp [h]

/-- Bounding-box accumulation for `_min` along a run of `map::add`. -/
theorem quadmap.addAll_min (ts : List quadmap.node) (m : quadmap.map) :
    (m.addAll ts)._min = (ts.map (fun t => t.pos)).foldl ivec2.cmin m._min := by
  induction ts generalizing m with
  | nil => rfl
  | cons t ts ih =>
    simpa [quadmap.map.addAll, quadmap.map.add] using ih (m.add t)

/-- Bounding-box accumulation for `_max` along a run of `map::add`. -/
theorem quadmap.addAll_max (ts : List quadmap.node) (m : quadmap.map) :
    (m.addAll ts)._max = (ts.map (fun t => t.pos + t.res)).foldl ivec2.cmax m._max := by
  induction ts generalizing m with
  | nil => rfl
  | cons t ts ih =>
    simpa [quadmap.map.addAll, quadmap.map.add] using ih (m.add t)

/-- C5 (counterexample): adding the single tile at position (1, 1) to a
freshly constructed grid leaves `_min = (0, 0)`, which is not the
componentwise minimum (1, 1) of the added tile positions, because
`_min`/`_max` start at `ivec2(0)` and only ever extend. -/
theorem claim_C5_cex :
    (quadmap.map.empty.addAll [quadmap.tileOne])._min ≠ quadmap.tileOne.pos := by
  decide

/-- C5 (amended): after every sequence of `map::add` calls on a freshly
constructed grid, `_min` equals the componentwise minimum of the initial
bound `(0, 0)` together with the added tiles' positions, and `_max`
equals the componentwise maximum of `(0, 0)` together with the added
tiles' `pos + res`. -/
theorem claim_C5_bounds_accumulate (ts : List quadmap.node) (_hne : ts ≠ []) :
    (quadmap.map.empty.addAll ts)._min =
      (ts.map (fun t => t.pos)).foldl ivec2.cmin ⟨0, 0⟩ ∧
    (quadmap.map.empty.addAll ts)._max =
      (ts.map (fun t => t.pos + t.res)).foldl ivec2.cmax ⟨0, 0⟩ :=
  ⟨quadmap.addAll_min ts quadmap.map.empty, quadmap.addAll_max ts quadmap.map.empty⟩

/-- C5 (witness): the amended bound accumulation evaluated on the
one-tile sequence. -/
theorem claim_C5_witness :
    [quadmap.tileOne] ≠ [] ∧
    ((quadmap.map.empty.addAll [quadmap.tileOne])._min =
       (([quadmap.tileOne]).map (fun t => t.pos)).foldl ivec2.cmin ⟨0, 0⟩ ∧
     (quadmap.map.empty.addAll [quadmap.tileOne])._max =
       (([quadmap.tileOne]).map (fun t => t.pos + t.res)).foldl ivec2.cmax ⟨0, 0⟩) :=
  ⟨by decide, claim_C5_bounds_accumulate [quadmap.tileOne] (by decide)⟩

/-- C2: `pool::get` returns the `{NULL, 0}` sentinel exactly when the
free deque is empty, the request exceeds the pool's total capacity, or
the request exceeds the front free region's length (assuming, as
`reserve` guarantees, that free regions carry non-null pointers); a
failed call leaves the pool unchanged. Concretely on a pool of capacity
100: `get(40)` is offset 0 length 40, `get(50)` is offset 40 length 50,
`get(20)` is the empty buffer, and the remaining free length is 10. -/
theorem claim_C2_alloc_failure (p : mappool.pool) (n : Nat)
    (hw : ∀ b ∈ p.free, b.start ≠ none) :
    ((p.get n).1 = mappool.buf.null ↔
      (p.free = [] ∨ p.root.size < n ∨ ∃ f rest, p.free = f :: rest ∧ f.size < n)) ∧
    ((p.get n).1 = mappool.buf.null → (p.get n).2 = p) ∧
    (mappool.runAllocs (mappool.pool.init 100) [40, 50, 20]).1 =
      [⟨some 0, 40⟩, ⟨some 40, 50⟩, mappool.buf.null] ∧
    (mappool.runAllocs (mappool.pool.init 100) [40, 50, 20]).2.free =
      [⟨some 90, 10⟩] := by
  refine ⟨?_, ?_, by decide, by decide⟩
  · obtain ⟨root, free⟩ := p
    cases free with
    | nil => simp [mappool.pool.get]
    | cons f rest =>
      have hfst : f.start ≠ none := hw f (List.mem_cons_self f rest)
      simp only [mappool.pool.get]
      by_cases h1 : n > root.size
      · rw [if_pos h1]
        simp only [mappool.buf.null]
        constructor
        · intro _
          exact Or.inr (Or.inl (by simpa using h1))
        · intro _
          trivial
      · rw [if_neg h1]
        by_cases h2 : f.size < n
        · rw [if_pos h2]
          constructor
          · intro _
            exact Or.inr (Or.inr ⟨f, rest, rfl, h2⟩)
          · intro _
            rfl
        · rw [if_neg h2]
          constructor
          · intro hEq
            exact absurd (congrArg mappool.buf.start hEq) (by simpa [mappool.buf.null] using hfst)
          · rintro (h | h | ⟨g, gs, hEq, hlt⟩)
            · exact absurd h (List.cons_ne_nil f rest)
            · exact absurd h (by simpa using h1)
            · obtain ⟨rfl, rfl⟩ : g = f ∧ gs = rest := by
                constructor <;> injection hEq <;> simp_all
              exact absurd hlt h2
  · obtain ⟨root, free⟩ := p
    cases free with
    | nil =>
      intro _
      rfl
    | cons f rest =>
      have hfst : f.start ≠ none := hw f (List.mem_cons_self f rest)
      simp only [mappool.pool.get]
      by_cases h1 : n > root.size
      · rw [if_pos h1]
        intro _
        rfl
      · rw [if_neg h1]
        by_cases h2 : f.size < n
        · rw [if_pos h2]
          intro _
          rfl
        · rw [if_neg h2]
          intro hEq
          exact absurd (congrArg mappool.buf.start hEq) (by simpa [mappool.buf.null] using hfst)

/-- C2 (witness): the failure characterization applied to the capacity
100 pool after its two successful allocations, at request size 20. -/
theorem claim_C2_witness :
    (∀ b ∈ (mappool.runAllocs (mappool.pool.init 100) [40, 50]).2.free, b.start ≠ none) ∧
    (((mappool.runAllocs (mappool.pool.init 100) [40, 50]).2.get 20).1 = mappool.buf.null ↔
      ((mappool.runAllocs (mappool.pool.init 100) [40, 50]).2.free = [] ∨
       (mappool.runAllocs (mappool.pool.init 100) [40, 50]).2.root.size < 20 ∨
       ∃ f rest, (mappool.runAllocs (mappool.pool.init 100) [40, 50]).2.free = f :: rest ∧
         f.size < 20)) ∧
    (((mappool.runAllocs (mappool.pool.init 100) [40, 50]).2.get 20).1 = mappool.buf.null →
      ((mappool.runAllocs (mappool.pool.init 100) [40, 50]).2.get 20).2 =
        (mappool.runAllocs (mappool.pool.init 100) [40, 50]).2) ∧
    (mappool.runAllocs (mappool.pool.init 100) [40, 50, 20]).1 =
      [⟨some 0, 40⟩, ⟨some 40, 50⟩, mappool.buf.null] ∧
    (mappool.runAllocs (mappool.pool.init 100) [40, 50, 20]).2.free =
      [⟨some 90, 10⟩] := by
  have h := claim_C2_alloc_failure (mappool.runAllocs (mappool.pool.init 100) [40, 50]).2 20
    (by decide)
  exact ⟨by decide, h.1, h.2.1, h.2.2.1, h.2.2.2⟩

/-- C7: `slice::get` flattens an in-bounds point `p` to the linear
offset `p.x * res.y + p.y` past the backing pointer (row-major, as the
spec fixes for the externally defined `math::flatten`). Concretely, on
the scenario tile (`pos = (0,0)`, `res = (4,4)`, `scale = 1`, 16-cell
slice at `base`): `get (2,3)` is the pointer at offset 11, while
`get (4,0)` and `get (-1,0)` are `NULL`. -/
theorem claim_C7_flatten_row_major (s : mappool.slice) (p : ivec2) (b : Int)
    (hb : s.root.start = some b) (hoob : s.oob p = false) :
    s.get p = some (b + (p.x * s.res.y + p.y)) ∧
    (∀ base : Int,
      (quadmap.scenarioTile base).get ⟨2, 3⟩ = some (base + 11) ∧
      (quadmap.scenarioTile base).get ⟨4, 0⟩ = none ∧
      (quadmap.scenarioTile base).get ⟨-1, 0⟩ = none) := by
  constructor
  · simp [mappool.slice.get, hb, hoob, math.flatten]
  · intro base
    refine ⟨?_, ?_, ?_⟩ <;>
      simp [quadmap.scenarioTile, quadmap.node.get, mappool.slice.get,
        mappool.slice.oob, ivec2.sdiv, math.flatten, Sub.sub, Int.tdiv_one]
    all_goals decide

/-- C7 (witness): the row-major offset formula evaluated on the scenario
slice at base offset 0 and point (2, 3). -/
theorem claim_C7_witness :
    (quadmap.scenarioTile 0).s.root.start = some 0 ∧
    (quadmap.scenarioTile 0).s.oob ⟨2, 3⟩ = false ∧
    ((quadmap.scenarioTile 0).s.get ⟨2, 3⟩ =
       some (0 + ((⟨2, 3⟩ : ivec2).x * (quadmap.scenarioTile 0).s.res.y +
         (⟨2, 3⟩ : ivec2).y)) ∧
     (∀ base : Int,
       (quadmap.scenarioTile base).get ⟨2, 3⟩ = some (base + 11) ∧
       (quadmap.scenarioTile base).get ⟨4, 0⟩ = none ∧
       (quadmap.scenarioTile base).get ⟨-1, 0⟩ = none)) :=
  ⟨by decide, by decide,
   claim_C7_flatten_row_major (quadmap.scenarioTile 0).s ⟨2, 3⟩ 0 (by decide) (by decide)⟩

/-- C9: because the local-coordinate transform truncates toward zero, a
tile with scale at least 2 accepts world points strictly left of its
footprint: whenever `pos.x - scale < p.x < pos.x` (and the local y
coordinate is in range, the backing pointer non-null, and the slice at
least one cell wide), the local x coordinate truncates to 0, `oob` is
false, `get` is non-null, and the returned cell is the first-column cell
also addressed by the point with x at `pos.x`. -/
theorem claim_C9_negative_overhang (t : quadmap.node) (p : ivec2)
    (_hs : 2 ≤ t.s.scale)
    (hx1 : t.pos.x - t.s.scale < p.x) (hx2 : p.x < t.pos.x)
    (hy0 : 0 ≤ (p.y - t.pos.y).tdiv t.s.scale)
    (hy1 : (p.y - t.pos.y).tdiv t.s.scale < t.s.res.y)
    (hroot : t.s.root.start ≠ none)
    (hresx : 0 < t.s.res.x) :
    ((p - t.pos).sdiv t.s.scale).x = 0 ∧
    t.oob p = false ∧
    t.get p ≠ none ∧
    t.get p = t.get ⟨t.pos.x, p.y⟩ := by
  have hx0 : (p.x - t.pos.x).tdiv t.s.scale = 0 := by
    have he : p.x - t.pos.x = -(t.pos.x - p.x) := by ring
    rw [he, Int.neg_tdiv, Int.tdiv_eq_zero_of_lt (by omega) (by omega), neg_zero]
  have hlocal : (p - t.pos).sdiv t.s.scale =
      ⟨0, (p.y - t.pos.y).tdiv t.s.scale⟩ := by
    simp [ivec2.sdiv, ivec2.sub_x, ivec2.sub_y, hx0]
  have hlocal2 : ((⟨t.pos.x, p.y⟩ : ivec2) - t.pos).sdiv t.s.scale =
      ⟨0, (p.y - t.pos.y).tdiv t.s.scale⟩ := by
    simp [ivec2.sdiv, ivec2.sub_x, ivec2.sub_y, Int.zero_tdiv]
  have hoob : t.s.oob ⟨0, (p.y - t.pos.y).tdiv t.s.scale⟩ = false := by
    unfold mappool.slice.oob
    split_ifs <;> simp_all <;> omega
  obtain ⟨st, hst⟩ := Option.ne_none_iff_exists.mp hroot
  refine ⟨by rw [hlocal], ?_, ?_, ?_⟩
  · unfold quadmap.node.oob
    rw [hlocal, hoob]
  · unfold quadmap.node.get mappool.slice.get
    rw [hlocal, ← hst]
    simp [hoob]
  · unfold quadmap.node.get
    rw [hlocal, hlocal2]

/-- C9 (witness): the scale-2 tile at (10, 0) accepts the world point
(9, 1), which lies strictly left of its footprint. -/
theorem claim_C9_witness :
    2 ≤ quadmap.tileScaled.s.scale ∧
    quadmap.tileScaled.pos.x - quadmap.tileScaled.s.scale < (9 : Int) ∧
    (9 : Int) < quadmap.tileScaled.pos.x ∧
    ((((⟨9, 1⟩ : ivec2) - quadmap.tileScaled.pos).sdiv quadmap.tileScaled.s.scale).x = 0 ∧
     quadmap.tileScaled.oob ⟨9, 1⟩ = false ∧
     quadmap.tileScaled.get ⟨9, 1⟩ ≠ none ∧
     quadmap.tileScaled.get ⟨9, 1⟩ =
       quadmap.tileScaled.get ⟨quadmap.tileScaled.pos.x, (⟨9, 1⟩ : ivec2).y⟩) :=
  ⟨by decide, by decide, by decide,
   claim_C9_negative_overhang quadmap.tileScaled ⟨9, 1⟩ (by decide) (by decide) (by decide)
     (by decide) (by decide) (by decide) (by decide)⟩

/-- Unfolding of `bufsUnion` on a cons. -/
theorem mappool.bufsUnion_cons (b : mappool.buf) (l : List mappool.buf) :
    mappool.bufsUnion (b :: l) = b.range ∪ mappool.bufsUnion l := rfl

/-- Length of the expected buffer list. -/
theorem mappool.expectedBufs_length (sizes : List Nat) :
    ∀ t : Int, (mappool.expectedBufs t sizes).length = sizes.length := by
  induction sizes with
  | nil => intro t; rfl
  | cons n ns ih => intro t; simp [mappool.expectedBufs, ih (t + n)]

/-- A successful allocation run from a bump state: starting from a pool
whose single free region is `[t, C)` inside backing storage `[0, C)`,
a request list fitting in the free region issues exactly the buffers at
the prefix sums and leaves the free region `[t + sum, C)`. -/
theorem mappool.runAllocs_bump (C : Nat) (sizes : List Nat) :
    ∀ t : Nat, t + sizes.sum ≤ C →
    mappool.runAllocs ⟨⟨some 0, C⟩, [⟨some (t : Int), C - t⟩]⟩ sizes =
      (mappool.expectedBufs (t : Int) sizes,
       ⟨⟨some 0, C⟩, [⟨some ((t + sizes.sum : Nat) : Int), C - (t + sizes.sum)⟩]⟩) := by
  induction sizes with
  | nil =>
    intro t _
    simp [mappool.runAllocs, mappool.expectedBufs]
  | cons n ns ih =>
    intro t h
    have hsum : t + (n + ns.sum) ≤ C := by simpa using h
    have h1 : ¬ (n > C) := by omega
    have h2 : ¬ (C - t < n) := by omega
    have hstep : mappool.pool.get ⟨⟨some 0, C⟩, [⟨some (t : Int), C - t⟩]⟩ n =
        (⟨some (t : Int), n⟩,
         ⟨⟨some 0, C⟩, [⟨some ((t + n : Nat) : Int), C - (t + n)⟩]⟩) := by
      simp only [mappool.pool.get]
      rw [if_neg h1, if_neg h2]
      refine congrArg₂ Prod.mk rfl ?_
      refine congrArg₂ mappool.pool.mk rfl ?_
      refine congrArg₂ List.cons ?_ rfl
      refine congrArg₂ mappool.buf.mk ?_ (by omega)
      simp
    simp only [mappool.runAllocs]
    rw [hstep]
    rw [ih (t + n) (by omega)]
    simp only [mappool.expectedBufs]
    refine congrArg₂ Prod.mk ?_ ?_
    · have hc : ((t + n : Nat) : Int) = (t : Int) + (n : Int) := by push_cast; ring
      rw [hc]
    · have hc : t + n + ns.sum = t + (n :: ns).sum := by
        simp only [List.sum_cons]
        omega
      rw [hc]

/-- Entries of the expected buffer list: the i-th buffer starts at `t`
plus the prefix sum of the earlier requests and has the i-th length. -/
theorem mappool.expectedBufs_get? (sizes : List Nat) :
    ∀ (t : Int) (i : Nat) (hi : i < sizes.length),
    (mappool.expectedBufs t sizes).get? i =
      some ⟨some (t + ((sizes.take i).sum : Int)), sizes.get ⟨i, hi⟩⟩ := by
  induction sizes with
  | nil => intro t i hi; simp at hi
  | cons n ns ih =>
    intro t i hi
    cases i with
    | zero => simp [mappool.expectedBufs]
    | succ i =>
      have hi2 : i < ns.length := by simpa using hi
      simp only [mappool.expectedBufs, List.get?]
      rw [ih (t + n) i hi2]
      simp only [List.take_succ_cons, List.sum_cons, List.get]
      refine congrArg some (congrArg₂ mappool.buf.mk (congrArg some ?_) rfl)
      push_cast
      ring

/-- Every expected buffer range lies inside `[t, t + sum)`. -/
theorem mappool.expectedBufs_range_subset (sizes : List Nat) :
    ∀ (t : Int), ∀ b ∈ mappool.expectedBufs t sizes,
      b.range ⊆ Finset.Ico t (t + (sizes.sum : Int)) := by
  induction sizes with
  | nil => intro t b hb; simp [mappool.expectedBufs] at hb
  | cons n ns ih =>
    intro t b hb
    rcases List.mem_cons.mp hb with rfl | hb
    · have : mappool.buf.range ⟨some t, n⟩ = Finset.Ico t (t + (n : Int)) := rfl
      rw [this]
      refine Finset.Ico_subset_Ico le_rfl ?_
      simp only [List.sum_cons, Nat.cast_add]
      omega
    · refine (ih (t + n) b hb).trans (Finset.Ico_subset_Ico ?_ ?_)
      · have : (0 : Int) ≤ (n : Int) := Int.natCast_nonneg _
        omega
      · simp only [List.sum_cons, Nat.cast_add]
        omega

/-- The expected buffer ranges are pairwise disjoint. -/
theorem mappool.expectedBufs_pairwise (sizes : List Nat) :
    ∀ t : Int,
      List.Pairwise (fun a b => Disjoint a.range b.range)
        (mappool.expectedBufs t sizes) := by
  induction sizes with
  | nil => intro t; simp [mappool.expectedBufs]
  | cons n ns ih =>
    intro t
    refine List.Pairwise.cons ?_ (ih (t + n))
    intro b hb
    have hsub := mappool.expectedBufs_range_subset ns (t + (n : Int)) b hb
    have hd : Disjoint (Finset.Ico t (t + (n : Int)))
        (Finset.Ico (t + (n : Int)) (t + (n : Int) + (ns.sum : Int))) :=
      Finset.Ico_disjoint_Ico_consecutive t (t + (n : Int)) (t + (n : Int) + (ns.sum : Int))
    have hr : mappool.buf.range ⟨some t, n⟩ = Finset.Ico t (t + (n : Int)) := rfl
    rw [hr]
    exact hd.mono_right hsub

/-- The union of the expected buffer ranges is exactly `[t, t + sum)`. -/
theorem mappool.expectedBufs_union (sizes : List Nat) :
    ∀ t : Int,
      mappool.bufsUnion (mappool.expectedBufs t sizes) =
        Finset.Ico t (t + (sizes.sum : Int)) := by
  induction sizes with
  | nil => intro t; simp [mappool.expectedBufs, mappool.bufsUnion]
  | cons n ns ih =>
    intro t
    have hr : mappool.buf.range ⟨some t, n⟩ = Finset.Ico t (t + (n : Int)) := rfl
    rw [show mappool.expectedBufs t (n :: ns) =
          (⟨some t, n⟩ : mappool.buf) :: mappool.expectedBufs (t + (n : Int)) ns from rfl,
        mappool.bufsUnion_cons, ih (t + n), hr,
        Finset.Ico_union_Ico_eq_Ico (by
          have : (0 : Int) ≤ (n : Int) := Int.natCast_nonneg _
          omega)
          (by
          have : (0 : Int) ≤ (ns.sum : Int) := Int.natCast_nonneg _
          omega)]
    congr 1
    simp only [List.sum_cons, Nat.cast_add]
    ring

/-- Taking a prefix of the expected buffers is the expected buffers of
the prefix of the requests. -/
theorem mappool.expectedBufs_take (sizes : List Nat) :
    ∀ (t : Int) (k : Nat),
      (mappool.expectedBufs t sizes).take k = mappool.expectedBufs t (sizes.take k) := by
  induction sizes with
  | nil => intro t k; simp [mappool.expectedBufs]
  | cons n ns ih =>
    intro t k
    cases k with
    | zero => simp [mappool.expectedBufs]
    | succ k =>
      simp only [mappool.expectedBufs, List.take_succ_cons]
      rw [ih (t + n) k]

/-- C1: for every sequence of allocation requests whose total fits into
a pool of capacity `C`, every `pool::get` succeeds and returns a
non-null buffer of exactly the requested length located at the prefix
sum of the earlier requests (so the issued ranges are contiguous), the
ranges are pairwise disjoint, their union together with the remaining
free region is exactly `[0, C)`, and no later call changes the buffers
issued earlier (the prefix of the results is stable). -/
theorem claim_C1_arena_invariants (C : Nat) (sizes : List Nat)
    (h : sizes.sum ≤ C) :
    (mappool.runAllocs (mappool.pool.init C) sizes).1.length = sizes.length ∧
    (∀ i (hi : i < sizes.length),
      (mappool.runAllocs (mappool.pool.init C) sizes).1.get? i =
        some ⟨some (((sizes.take i).sum : Int)), sizes.get ⟨i, hi⟩⟩) ∧
    (mappool.runAllocs (mappool.pool.init C) sizes).2.free =
      [⟨some ((sizes.sum : Int)), C - sizes.sum⟩] ∧
    List.Pairwise (fun a b => Disjoint a.range b.range)
      (mappool.runAllocs (mappool.pool.init C) sizes).1 ∧
    mappool.bufsUnion (mappool.runAllocs (mappool.pool.init C) sizes).1 ∪
      mappool.bufsUnion (mappool.runAllocs (mappool.pool.init C) sizes).2.free =
      Finset.Ico (0 : Int) (C : Int) ∧
    (∀ k, (mappool.runAllocs (mappool.pool.init C) (sizes.take k)).1 =
      (mappool.runAllocs (mappool.pool.init C) sizes).1.take k) := by
  have hb := mappool.runAllocs_bump C sizes 0 (by omega)
  have hinit : (⟨⟨some 0, C⟩, [⟨some ((0 : Nat) : Int), C - 0⟩]⟩ : mappool.pool) =
      mappool.pool.init C := rfl
  rw [hinit] at hb
  have hb1 : (mappool.runAllocs (mappool.pool.init C) sizes).1 =
      mappool.expectedBufs ((0 : Nat) : Int) sizes := by rw [hb]
  have hb2 : (mappool.runAllocs (mappool.pool.init C) sizes).2.free =
      [⟨some ((sizes.sum : Int)), C - sizes.sum⟩] := by
    rw [hb]
    simp
  refine ⟨?_, ?_, hb2, ?_, ?_, ?_⟩
  · rw [hb1, mappool.expectedBufs_length]
  · intro i hi
    rw [hb1, mappool.expectedBufs_get? sizes _ i hi]
    simp
  · rw [hb1]
    exact mappool.expectedBufs_pairwise sizes _
  · rw [hb1, hb2, mappool.expectedBufs_union, mappool.bufsUnion_cons]
    have hr : (⟨some ((sizes.sum : Int)), C - sizes.sum⟩ : mappool.buf).range =
        Finset.Ico ((sizes.sum : Int))
          (((sizes.sum : Int)) + ((C - sizes.sum : Nat) : Int)) := rfl
    rw [hr]
    have hc : ((sizes.sum : Int)) + ((C - sizes.sum : Nat) : Int) = (C : Int) := by omega
    rw [hc]
    have hz : ((0 : Nat) : Int) = (0 : Int) := rfl
    rw [hz, zero_add]
    have hu : mappool.bufsUnion [] = (∅ : Finset Int) := rfl
    rw [hu, Finset.union_empty]
    exact Finset.Ico_union_Ico_eq_Ico (Int.natCast_nonneg _) (by omega)
  · intro k
    have hk := List.sum_take_add_sum_drop sizes k
    have hbk := mappool.runAllocs_bump C (sizes.take k) 0 (by omega)
    rw [hinit] at hbk
    rw [congrArg Prod.fst hbk, hb1, mappool.expectedBufs_take]

/-- C1 (witness): the allocation-run invariants evaluated on a pool of
capacity 10 and the request sequence 3, 4. -/
theorem claim_C1_witness :
    ([3, 4] : List Nat).sum ≤ 10 ∧
    ((mappool.runAllocs (mappool.pool.init 10) [3, 4]).1.length = [3, 4].length ∧
     (∀ i (hi : i < ([3, 4] : List Nat).length),
       (mappool.runAllocs (mappool.pool.init 10) [3, 4]).1.get? i =
         some ⟨some (((([3, 4] : List Nat).take i).sum : Int)), ([3, 4] : List Nat).get ⟨i, hi⟩⟩) ∧
     (mappool.runAllocs (mappool.pool.init 10) [3, 4]).2.free =
       [⟨some ((([3, 4] : List Nat).sum : Int)), 10 - ([3, 4] : List Nat).sum⟩] ∧
     List.Pairwise (fun a b => Disjoint a.range b.range)
       (mappool.runAllocs (mappool.pool.init 10) [3, 4]).1 ∧
     mappool.bufsUnion (mappool.runAllocs (mappool.pool.init 10) [3, 4]).1 ∪
       mappool.bufsUnion (mappool.runAllocs (mappool.pool.init 10) [3, 4]).2.free =
       Finset.Ico (0 : Int) ((10 : Nat) : Int) ∧
     (∀ k, (mappool.runAllocs (mappool.pool.init 10) (([3, 4] : List Nat).take k)).1 =
       (mappool.runAllocs (mappool.pool.init 10) [3, 4]).1.take k)) :=
  ⟨by decide, claim_C1_arena_invariants 10 [3, 4] (by decide)⟩

/-- C4: on a well-formed uniform grid (tile `(i, j)` of extent `(W, W)`
at position `(i*W, j*W)` stored at row-major index `i*T + j`, bounds
`[0, T*W)` per axis), `map::get` returns `NULL` for every point outside
`[min, max)`, and for every in-bounds point returns a non-null pointer
to the tile at the row-major index of the truncated quotient — which is
the unique lattice tile whose footprint contains the point. -/
theorem claim_C4_uniform_grid_lookup (W T : Int) (m : quadmap.map) (p : ivec2)
    (hW : 0 < W) (hT : 0 < T)
    (hmin : m._min = ⟨0, 0⟩) (hmax : m._max = ⟨T * W, T * W⟩)
    (hnodes : ∀ i j : Int, 0 ≤ i → i < T → 0 ≤ j → j < T →
      ∃ nd, m.nodes.get? (i * T + j).toNat = some nd ∧
        nd.pos = ⟨i * W, j * W⟩ ∧ nd.res = ⟨W, W⟩) :
    (m.oob p = true → m.get W T p = none) ∧
    (m.oob p = false →
      ∃ nd, m.get W T p = some nd ∧
        m.nodes.get? (p.x.tdiv W * T + p.y.tdiv W).toNat = some nd ∧
        nd.pos.x ≤ p.x ∧ p.x < nd.pos.x + nd.res.x ∧
        nd.pos.y ≤ p.y ∧ p.y < nd.pos.y + nd.res.y ∧
        (∀ i j : Int, 0 ≤ i → i < T → 0 ≤ j → j < T →
          i * W ≤ p.x → p.x < i * W + W → j * W ≤ p.y → p.y < j * W + W →
          i = p.x.tdiv W ∧ j = p.y.tdiv W)) := by
  constructor
  · intro ho
    simp [quadmap.map.get, ho]
  · intro ho
    have hbounds : 0 ≤ p.x ∧ p.x < T * W ∧ 0 ≤ p.y ∧ p.y < T * W := by
      unfold quadmap.map.oob at ho
      rw [hmin, hmax] at ho
      split_ifs at ho
      simp_all
    obtain ⟨hx0, hx1, hy0, hy1⟩ := hbounds
    have hWnn : (0 : Int) ≤ W := le_of_lt hW
    have htx : p.x.tdiv W = p.x / W := Int.tdiv_eq_ediv hx0 hWnn
    have hty : p.y.tdiv W = p.y / W := Int.tdiv_eq_ediv hy0 hWnn
    have hi0 : 0 ≤ p.x / W := Int.ediv_nonneg hx0 hWnn
    have hiT : p.x / W < T := Int.ediv_lt_of_lt_mul hW hx1
    have hj0 : 0 ≤ p.y / W := Int.ediv_nonneg hy0 hWnn
    have hjT : p.y / W < T := Int.ediv_lt_of_lt_mul hW hy1
    obtain ⟨nd, hnd, hpos, hres⟩ := hnodes (p.x / W) (p.y / W) hi0 hiT hj0 hjT
    have hiW : p.x / W * W ≤ p.x := Int.ediv_mul_le p.x (ne_of_gt hW)
    have hiW2 : p.x < p.x / W * W + W := by
      have h2 := Int.lt_ediv_add_one_mul_self p.x hW
      have h3 : (p.x / W + 1) * W = p.x / W * W + W := by ring
      omega
    have hjW : p.y / W * W ≤ p.y := Int.ediv_mul_le p.y (ne_of_gt hW)
    have hjW2 : p.y < p.y / W * W + W := by
      have h2 := Int.lt_ediv_add_one_mul_self p.y hW
      have h3 : (p.y / W + 1) * W = p.y / W * W + W := by ring
      omega
    have hind0 : 0 ≤ p.x / W * T + p.y / W :=
      add_nonneg (mul_nonneg hi0 (le_of_lt hT)) hj0
    refine ⟨nd, ?_, ?_, ?_, ?_, ?_, ?_, ?_⟩
    · unfold quadmap.map.get
      rw [ho]
      simp only [Bool.false_eq_true, if_false, ivec2.vdiv]
      rw [htx, hty, if_neg (by omega)]
      exact hnd
    · rw [htx, hty]
      exact hnd
    · rw [hpos]
      exact hiW
    · rw [hpos, hres]
      exact hiW2
    · rw [hpos]
      exact hjW
    · rw [hpos, hres]
      exact hjW2
    · intro i j _ hiT2 _ hjT2 hxl hxr hyl hyr
      constructor
      · rw [htx]
        have hle : i ≤ p.x / W := (Int.le_ediv_iff_mul_le hW).mpr hxl
        have hlt : p.x / W < i + 1 := by
          rw [Int.ediv_lt_iff_lt_mul hW]
          have : (i + 1) * W = i * W + W := by ring
          omega
        omega
      · rw [hty]
        have hle : j ≤ p.y / W := (Int.le_ediv_iff_mul_le hW).mpr hyl
        have hlt : p.y / W < j + 1 := by
          rw [Int.ediv_lt_iff_lt_mul hW]
          have : (j + 1) * W = j * W + W := by ring
          omega
        omega

/-- C4 (witness): the uniform-grid lookup applied to the one-tile unit
grid at the in-bounds point (0, 0). -/
theorem claim_C4_witness :
    ((0 : Int) < 1 ∧ quadmap.unitGrid._min = ⟨0, 0⟩ ∧
     quadmap.unitGrid._max = ⟨1 * 1, 1 * 1⟩) ∧
    ((quadmap.unitGrid.oob ⟨0, 0⟩ = true → quadmap.unitGrid.get 1 1 ⟨0, 0⟩ = none) ∧
     (quadmap.unitGrid.oob ⟨0, 0⟩ = false →
       ∃ nd, quadmap.unitGrid.get 1 1 ⟨0, 0⟩ = some nd ∧
         quadmap.unitGrid.nodes.get?
           ((⟨0, 0⟩ : ivec2).x.tdiv 1 * 1 + (⟨0, 0⟩ : ivec2).y.tdiv 1).toNat = some nd ∧
         nd.pos.x ≤ (⟨0, 0⟩ : ivec2).x ∧ (⟨0, 0⟩ : ivec2).x < nd.pos.x + nd.res.x ∧
         nd.pos.y ≤ (⟨0, 0⟩ : ivec2).y ∧ (⟨0, 0⟩ : ivec2).y < nd.pos.y + nd.res.y ∧
         (∀ i j : Int, 0 ≤ i → i < 1 → 0 ≤ j → j < 1 →
           i * 1 ≤ (⟨0, 0⟩ : ivec2).x → (⟨0, 0⟩ : ivec2).x < i * 1 + 1 →
           j * 1 ≤ (⟨0, 0⟩ : ivec2).y → (⟨0, 0⟩ : ivec2).y < j * 1 + 1 →
           i = (⟨0, 0⟩ : ivec2).x.tdiv 1 ∧ j = (⟨0, 0⟩ : ivec2).y.tdiv 1))) :=
  ⟨⟨by decide, rfl, by decide⟩,
   claim_C4_uniform_grid_lookup 1 1 quadmap.unitGrid ⟨0, 0⟩ (by decide) (by decide) rfl
     (by decide)
     (by
       intro i j hi0 hi1 hj0 hj1
       have hi : i = 0 := by omega
       have hj : j = 0 := by omega
       subst hi
       subst hj
       exact ⟨quadmap.unitTile, by decide, by decide, by decide⟩)⟩

/-- C8: `quad::map::init` inserts every tile into the grid without
checking its cell-pool allocation: tile `(i, j)` is stored at index
`i*mapsize + j` with its position and extent set, whatever pool state
was supplied; `map::get` resolves every world point of that tile's
footprint to it; and if its backing buffer allocation failed (null
pointer), the tile's `get` returns `NULL` at every point — a silently
dead tile. -/
theorem claim_C8_dead_tile (cp : mappool.pool) (i j : Int)
    (h0 : 0 ≤ i) (h1 : i < quad.mapsize) (h2 : 0 ≤ j) (h3 : j < quad.mapsize) :
    ∃ nd, (quad.map.init cp).1.nodes.get? (i * quad.mapsize + j).toNat = some nd ∧
      nd.pos = ⟨quad.tilesize * i, quad.tilesize * j⟩ ∧
      nd.res = quad.tileres ∧
      (nd.s.root.start = none → ∀ p : ivec2, nd.get p = none) ∧
      (∀ p : ivec2,
        quad.tilesize * i ≤ p.x → p.x < quad.tilesize * i + quad.tilesize →
        quad.tilesize * j ≤ p.y → p.y < quad.tilesize * j + quad.tilesize →
        (quad.map.init cp).1.get p = some nd) := by
  have h1' : i < 2 := by simpa [quad.mapsize] using h1
  have h3' : j < 2 := by simpa [quad.mapsize] using h3
  have hdead : ∀ nd : quad.node, nd.s.root.start = none → ∀ p : ivec2, nd.get p = none := by
    intro nd hnull p
    unfold quad.node.get mappool.slice.get
    rw [hnull]
  have hsz : quad.size = 1024 := by norm_num [quad.size, quad.mapsize, quad.tilesize]
  interval_cases i <;> interval_cases j
  · refine ⟨_, rfl, rfl, rfl, hdead _, ?_⟩
    intro p hx1 hx2 hy1 hy2
    norm_num [quad.tilesize] at hx1 hx2 hy1 hy2
    have hqx : p.x.tdiv 512 = 0 := by
      rw [Int.tdiv_eq_ediv (by omega) (by norm_num)]
      omega
    have hqy : p.y.tdiv 512 = 0 := by
      rw [Int.tdiv_eq_ediv (by omega) (by norm_num)]
      omega
    have hoob : quad.map.oob (quad.map.init cp).1 p = false := by
      unfold quad.map.oob
      rw [hsz, if_neg (by omega), if_neg (by omega), if_neg (by omega), if_neg (by omega)]
    unfold quad.map.get
    rw [hoob]
    have hq : p.vdiv quad.tileres = ⟨0, 0⟩ := by
      simp [ivec2.vdiv, quad.tileres, quad.tilesize, hqx, hqy]
    simp only [Bool.false_eq_true, if_false, hq]
    rw [if_neg (by norm_num [quad.mapsize])]
    rfl
  · refine ⟨_, rfl, rfl, rfl, hdead _, ?_⟩
    intro p hx1 hx2 hy1 hy2
    norm_num [quad.tilesize] at hx1 hx2 hy1 hy2
    have hqx : p.x.tdiv 512 = 0 := by
      rw [Int.tdiv_eq_ediv (by omega) (by norm_num)]
      omega
    have hqy : p.y.tdiv 512 = 1 := by
      rw [Int.tdiv_eq_ediv (by omega) (by norm_num)]
      omega
    have hoob : quad.map.oob (quad.map.init cp).1 p = false := by
      unfold quad.map.oob
      rw [hsz, if_neg (by omega), if_neg (by omega), if_neg (by omega), if_neg (by omega)]
    unfold quad.map.get
    rw [hoob]
    have hq : p.vdiv quad.tileres = ⟨0, 1⟩ := by
      simp [ivec2.vdiv, quad.tileres, quad.tilesize, hqx, hqy]
    simp only [Bool.false_eq_true, if_false, hq]
    rw [if_neg (by norm_num [quad.mapsize])]
    rfl
  · refine ⟨_, rfl, rfl, rfl, hdead _, ?_⟩
    intro p hx1 hx2 hy1 hy2
    norm_num [quad.tilesize] at hx1 hx2 hy1 hy2
    have hqx : p.x.tdiv 512 = 1 := by
      rw [Int.tdiv_eq_ediv (by omega) (by norm_num)]
      omega
    have hqy : p.y.tdiv 512 = 0 := by
      rw [Int.tdiv_eq_ediv (by omega) (by norm_num)]
      omega
    have hoob : quad.map.oob (quad.map.init cp).1 p = false := by
      unfold quad.map.oob
      rw [hsz, if_neg (by omega), if_neg (by omega), if_neg (by omega), if_neg (by omega)]
    unfold quad.map.get
    rw [hoob]
    have hq : p.vdiv quad.tileres = ⟨1, 0⟩ := by
      simp [ivec2.vdiv, quad.tileres, quad.tilesize, hqx, hqy]
    simp only [Bool.false_eq_true, if_false, hq]
    rw [if_neg (by norm_num [quad.mapsize])]
    rfl
  · refine ⟨_, rfl, rfl, rfl, hdead _, ?_⟩
    intro p hx1 hx2 hy1 hy2
    norm_num [quad.tilesize] at hx1 hx2 hy1 hy2
    have hqx : p.x.tdiv 512 = 1 := by
      rw [Int.tdiv_eq_ediv (by omega) (by norm_num)]
      omega
    have hqy : p.y.tdiv 512 = 1 := by
      rw [Int.tdiv_eq_ediv (by omega) (by norm_num)]
      omega
    have hoob : quad.map.oob (quad.map.init cp).1 p = false := by
      unfold quad.map.oob
      rw [hsz, if_neg (by omega), if_neg (by omega), if_neg (by omega), if_neg (by omega)]
    unfold quad.map.get
    rw [hoob]
    have hq : p.vdiv quad.tileres = ⟨1, 1⟩ := by
      simp [ivec2.vdiv, quad.tileres, quad.tilesize, hqx, hqy]
    simp only [Bool.false_eq_true, if_false, hq]
    rw [if_neg (by norm_num [quad.mapsize])]
    rfl

/-- C8 (witness): the dead-tile behaviour exhibited on an exhausted
cell pool (capacity 0, so every tile allocation fails) at tile (0, 0). -/
theorem claim_C8_witness :
    (0 : Int) ≤ 0 ∧ (0 : Int) < quad.mapsize ∧
    (∃ nd, (quad.map.init (mappool.pool.init 0)).1.nodes.get?
        ((0 : Int) * quad.mapsize + 0).toNat = some nd ∧
      nd.pos = ⟨quad.tilesize * 0, quad.tilesize * 0⟩ ∧
      nd.res = quad.tileres ∧
      (nd.s.root.start = none → ∀ p : ivec2, nd.get p = none) ∧
      (∀ p : ivec2,
        quad.tilesize * 0 ≤ p.x → p.x < quad.tilesize * 0 + quad.tilesize →
        quad.tilesize * 0 ≤ p.y → p.y < quad.tilesize * 0 + quad.tilesize →
        (quad.map.init (mappool.pool.init 0)).1.get p = some nd)) :=
  ⟨le_refl 0, by decide,
   claim_C8_dead_tile (mappool.pool.init 0) 0 0 (by decide) (by decide) (by decide)
     (by decide)⟩
